import Mathlib

/-!
Verification of `fish/alloc.c` (guestfish `alloc` and `sparse` commands).

The development shallowly embeds the three functions of the source file:

* `parse_size` — the size-specification parser built on
  `sscanf (str, "%<u64>%c", ...)` / `sscanf (str, "%<u64>", ...)`;
* `do_alloc`  — the `alloc` command handler;
* `do_sparse` — the `sparse` command handler.

Machine integers are modelled as `Nat` with explicit reduction modulo
`2 ^ 64` where the C code performs `uint64_t` / `size_t` arithmetic, and
the `off_t` result cell as a mathematical integer obtained by two's
complement reinterpretation of the `uint64_t` value.

The handlers interact with the outside world (the libguestfs handle and
the host filesystem) only through a fixed sequence of calls; an `Env`
record supplies the outcome of each call, and each handler returns its
`int` status together with the list of filesystem operations it performed
and the final state of the target file.
-/

/-- `2 ^ 64`, the modulus of `uint64_t` and (on the modelled platform)
`size_t` arithmetic. -/
def U64MOD : Nat := 2 ^ 64

/-- Two's complement reinterpretation of a `uint64_t` value as a signed
64-bit `off_t` (`*size_rtn = size;` converts `uint64_t` to `off_t`). -/
def toOfft (u : Nat) : Int :=
  if u < 2 ^ 63 then (u : Int) else (u : Int) - (U64MOD : Int)

/-- Conversion of an `off_t` value to `size_t`
(`size_t remaining = size;`): reduction modulo `2 ^ 64`. -/
def sizetToNat (i : Int) : Nat := (i % (U64MOD : Int)).toNat

/-- `size_t` subtraction (`remaining -= r;`): exact subtraction when the
subtrahend is no larger, with unsigned wraparound otherwise. -/
def sizetSub (a b : Nat) : Nat := (U64MOD + a - b) % U64MOD

/-- The characters accepted by the `%c`-skipping whitespace of
`sscanf`'s `%<u64>` conversion: C `isspace` in the "C" locale. -/
def isSpaceC (c : Char) : Bool :=
  decide (c = ' ' ∨ c = '\t' ∨ c = '\n' ∨ c = '\x0b' ∨ c = '\x0c' ∨ c = '\r')

/-- Numeric value of a decimal digit character. -/
def digitVal (c : Char) : Nat := c.toNat - '0'.toNat

/-- The maximal run of decimal digits at the head of the input, folded
into an accumulator, together with the unconsumed remainder.  This is the
digit-consumption phase of `sscanf`'s `%<u64>` conversion. -/
def scanDigits : List Char → Nat → Nat × List Char
  | c :: cs, acc =>
      if c.isDigit then scanDigits cs (acc * 10 + digitVal c) else (acc, c :: cs)
  | [], acc => (acc, [])

/-- The optional sign accepted by `strtoull` (and hence by `sscanf`'s
unsigned conversion): returns whether a minus sign was consumed, and the
rest of the input. -/
def stripSign (s : List Char) : Bool × List Char :=
  match s with
  | [] => (false, [])
  | c :: r =>
      if c = '-' then (true, r)
      else if c = '+' then (false, r)
      else (false, c :: r)

/-- `strtoull` saturates at `ULLONG_MAX` when the digit string denotes a
value out of range (glibc `sscanf` converts through `strtoull`). -/
def clampU64 (n : Nat) : Nat := min n (U64MOD - 1)

/-- The `%<u64>` conversion of `sscanf`: skip leading whitespace, accept
an optional sign, then require at least one decimal digit.  On success
returns the converted `uint64_t` value (saturated, negated modulo
`2 ^ 64` under a minus sign, as `strtoull` does) and the unconsumed rest
of the input; on matching failure returns `none`. -/
def scanU64 (s : List Char) : Option (Nat × List Char) :=
  match stripSign (s.dropWhile isSpaceC) with
  | (neg, c :: rest) =>
      if c.isDigit then
        some ((if neg then (U64MOD - clampU64 (scanDigits (c :: rest) 0).1) % U64MOD
               else clampU64 (scanDigits (c :: rest) 0).1),
              (scanDigits (c :: rest) 0).2)
      else none
  | (_, []) => none

/-- The `switch (type)` table of `parse_size`: the multiplier attached to
a suffix character, or `none` for the `default:` branch. -/
def suffixFactor (c : Char) : Option Nat :=
  if c = 'k' ∨ c = 'K' then some 1024
  else if c = 'm' ∨ c = 'M' then some (1024 * 1024)
  else if c = 'g' ∨ c = 'G' then some (1024 * 1024 * 1024)
  else if c = 't' ∨ c = 'T' then some (1024 * 1024 * 1024 * 1024)
  else if c = 'p' ∨ c = 'P' then some (1024 * 1024 * 1024 * 1024 * 1024)
  else if c = 'e' ∨ c = 'E' then some (1024 * 1024 * 1024 * 1024 * 1024 * 1024)
  else if c = 's' then some 512
  else none

/-- `parse_size (str, size_rtn)`.  The first component is the returned
`int` status (`0` or `-1`); the second is the final content of the
caller's `*size_rtn` cell, given its prior content `size_rtn` (the cell
is written only on the success path).

`sscanf (str, "%<u64>%c", &size, &type)` returns `2` exactly when
`scanU64` succeeds with a nonempty remainder (whose first character is
`type`; further characters are ignored by `sscanf`); it returns `1`
exactly when `scanU64` succeeds with an empty remainder, in which case
the second `sscanf (str, "%<u64>", &size)` also returns `1` with the
same converted value.  All multiplications are `uint64_t`
multiplications, hence reduced modulo `2 ^ 64`. -/
def parse_size (str : List Char) (size_rtn : Int) : Int × Int :=
  match scanU64 str with
  | some (size, t :: _) =>
      match suffixFactor t with
      | some f => (0, toOfft ((size * f) % U64MOD))
      | none => (-1, size_rtn)
  | some (size, []) => (0, toOfft ((size * 1024) % U64MOD))
  | none => (-1, size_rtn)

/-- A host filesystem operation performed by a handler on the target
file: the `open` call, the `posix_fallocate` call, a `write` of `n`
requested bytes, an `lseek` to an absolute offset, the `close` call and
the `unlink` call.  (`guestfs_is_config` and `guestfs_add_drive` are
collaborator calls, not filesystem operations.) -/
inductive FsEvent
  | ev_open
  | ev_fallocate
  | ev_write (n : Nat)
  | ev_lseek (off : Int)
  | ev_close
  | ev_unlink
deriving DecidableEq, Repr

/-- Result of one handler invocation: the returned `int` status, the
filesystem operations performed in order, and the final state of the
target file (`some len` = a file of logical length `len` bytes exists,
`none` = no file exists at the target path). -/
structure CmdOut where
  ret : Int
  events : List FsEvent
  file : Option Nat
deriving DecidableEq, Repr

/-- Outcomes of the external calls a handler makes, fixed before the
run.  `size_init` is the arbitrary initial content of the uninitialised
`off_t size` local passed by address to `parse_size`; `init_file` is the
state of the target path before the run.  `have_posix_fallocate` selects
the compile-time `HAVE_POSIX_FALLOCATE` branch of `do_alloc`;
`fallocate_ret` is the `int` returned by `posix_fallocate` (`0` on
success, a positive error number on failure — never `-1`).
`write_rets` lists the successive return values of `write` in the
fallback loop; `write1_ret` is the return value of the single
one-byte `write` of `do_sparse`. -/
structure Env where
  size_init : Int
  init_file : Option Nat
  is_config : Bool
  open_ok : Bool
  have_posix_fallocate : Bool
  fallocate_ret : Int
  write_rets : List Int
  lseek_ok : Bool
  write1_ret : Int
  close_ok : Bool
  add_drive_ok : Bool

/-- `BUFSIZ` of the modelled platform (glibc): the chunk buffer of the
fallback allocation loop is `char buffer[BUFSIZ]`. -/
def BUFSIZ : Nat := 8192

/-- The fallback allocation loop of `do_alloc`
(`while (remaining > 0) { n = min(remaining, BUFSIZ); r = write(...); ... }`),
driven by the list of `write` return values.  Returns `none` when the
outcome list is too short to decide the run; otherwise
`some (completed, written, events)` where `completed` is false exactly
when a `write` returned `-1`, `written` is the total of the returned
byte counts, and `events` records each `write` request. -/
def allocLoop (rem : Nat) (rets : List Int) : Option (Bool × Nat × List FsEvent) :=
  match rem, rets with
  | 0, _ => some (true, 0, [])
  | _ + 1, [] => none
  | r' + 1, r :: rs =>
      let n := min (r' + 1) BUFSIZ
      if r = -1 then some (false, 0, [FsEvent.ev_write n])
      else
        match allocLoop (sizetSub (r' + 1) r.toNat) rs with
        | some (ok, w, evs) => some (ok, r.toNat + w, FsEvent.ev_write n :: evs)
        | none => none

/-- Validity of a `write` outcome list against POSIX: each consumed
outcome is either `-1` (error) or a byte count between `0` and the
requested length `min remaining BUFSIZ`.  Mirrors the consumption order
of `allocLoop`. -/
def writesOk (rem : Nat) (rets : List Int) : Bool :=
  match rem, rets with
  | 0, _ => true
  | _ + 1, [] => true
  | r' + 1, r :: rs =>
      if r = -1 then true
      else
        decide (0 ≤ r) && decide (r.toNat ≤ min (r' + 1) BUFSIZ) &&
          writesOk (sizetSub (r' + 1) r.toNat) rs

/-- The common tail of both handlers: `close (fd)` with
delete-and-fail on error, then `guestfs_add_drive` with delete-and-fail
on error, then `return 0`.  `evs` are the events already performed and
`len` the logical length of the file at this point. -/
def close_and_add_drive (env : Env) (evs : List FsEvent) (len : Nat) : CmdOut :=
  if !env.close_ok then
    ⟨-1, evs ++ [FsEvent.ev_close, FsEvent.ev_unlink], none⟩
  else if !env.add_drive_ok then
    ⟨-1, evs ++ [FsEvent.ev_close, FsEvent.ev_unlink], none⟩
  else
    ⟨0, evs ++ [FsEvent.ev_close], some len⟩

/-- The `alloc` command handler `do_alloc (cmd, argc, argv)`; `argc` is
`argv.length`.  Returns `none` only when `env.write_rets` is too short
to decide the fallback loop.

On the `HAVE_POSIX_FALLOCATE` branch the code tests
`posix_fallocate (...) == -1`; since `posix_fallocate` returns `0` or a
positive error number, the test is modelled on `env.fallocate_ret`
exactly as written.  The file length after a `posix_fallocate` that
returned `0` is `size` (the file was just truncated to length `0`);
after a nonzero return that still passes the `== -1` test the length is
left unspecified by POSIX and modelled as `0`. -/
def do_alloc (argv : List String) (env : Env) : Option CmdOut :=
  match argv with
  | [_file, sizestr] =>
      let ps := parse_size sizestr.data env.size_init
      if ps.1 = -1 then some ⟨-1, [], env.init_file⟩
      else if !env.is_config then some ⟨-1, [], env.init_file⟩
      else if !env.open_ok then some ⟨-1, [FsEvent.ev_open], env.init_file⟩
      else
        let size := ps.2
        if env.have_posix_fallocate then
          if env.fallocate_ret = -1 then
            some ⟨-1, [FsEvent.ev_open, FsEvent.ev_fallocate,
                       FsEvent.ev_close, FsEvent.ev_unlink], none⟩
          else
            some (close_and_add_drive env [FsEvent.ev_open, FsEvent.ev_fallocate]
              (if env.fallocate_ret = 0 then size.toNat else 0))
        else
          match allocLoop (sizetToNat size) env.write_rets with
          | some (true, w, evs) =>
              some (close_and_add_drive env (FsEvent.ev_open :: evs) w)
          | some (false, _, evs) =>
              some ⟨-1, FsEvent.ev_open :: evs ++ [FsEvent.ev_close, FsEvent.ev_unlink],
                    none⟩
          | none => none
  | _ => some ⟨-1, [], env.init_file⟩

/-- The `sparse` command handler `do_sparse (cmd, argc, argv)`; `argc`
is `argv.length`.  `lseek (fd, size - 1, SEEK_SET)` fails when the
offset is negative (POSIX `EINVAL`) or when the environment says so;
on success the subsequent `write (fd, &c, 1)` is checked against `1`,
and a successful write at offset `size - 1` leaves a file of logical
length `(size - 1) + 1`. -/
def do_sparse (argv : List String) (env : Env) : CmdOut :=
  match argv with
  | [_file, sizestr] =>
      let ps := parse_size sizestr.data env.size_init
      if ps.1 = -1 then ⟨-1, [], env.init_file⟩
      else if !env.is_config then ⟨-1, [], env.init_file⟩
      else if !env.open_ok then ⟨-1, [FsEvent.ev_open], env.init_file⟩
      else
        let off := ps.2 - 1
        if off < 0 ∨ !env.lseek_ok then
          ⟨-1, [FsEvent.ev_open, FsEvent.ev_lseek off,
                FsEvent.ev_close, FsEvent.ev_unlink], none⟩
        else if env.write1_ret ≠ 1 then
          ⟨-1, [FsEvent.ev_open, FsEvent.ev_lseek off, FsEvent.ev_write 1,
                FsEvent.ev_close, FsEvent.ev_unlink], none⟩
        else
          close_and_add_drive env
            [FsEvent.ev_open, FsEvent.ev_lseek off, FsEvent.ev_write 1]
            (off.toNat + 1)
  | _ => ⟨-1, [], env.init_file⟩

/-- A fully cooperative environment for concrete runs: configuration
open, every call succeeds, three `write` outcomes for the fallback
loop. -/
def envAllOk : Env :=
  ⟨0, none, true, true, true, 0, [8192, 8192, 4096], true, 1, true, true⟩

/-- Environment whose drive configuration is already closed. -/
def envCfgClosed : Env :=
  ⟨0, some 5, false, true, true, 0, [8192, 8192, 4096], true, 1, true, true⟩

/-- Cooperative environment for the fallback (no `posix_fallocate`)
build of `do_alloc`. -/
def envNoFalloc : Env :=
  ⟨0, none, true, true, false, 0, [8192, 8192, 4096], true, 1, true, true⟩

/-- Cooperative environment in which `guestfs_add_drive` fails. -/
def envAddFail : Env :=
  ⟨0, none, true, true, true, 0, [8192, 8192, 4096], true, 1, true, false⟩

/-- The numeric value of a decimal digit string. -/
def digitsVal (ds : List Char) : Nat :=
  ds.foldl (fun a c => a * 10 + digitVal c) 0

/-- The exact acceptance condition of `parse_size`: after optional
whitespace and an optional sign there is at least one decimal digit, and
the character immediately after the maximal digit run — when there is
one — is a valid suffix character.  Characters beyond that one are not
inspected. -/
def accepted (s : List Char) : Bool :=
  match (stripSign (s.dropWhile isSpaceC)).2 with
  | [] => false
  | c :: cs =>
      c.isDigit &&
        (match (c :: cs).dropWhile Char.isDigit with
         | [] => true
         | t :: _ => (suffixFactor t).isSome)

/-- Following the spec's words, first grammar form: a nonempty run of
digits followed by exactly one suffix character. -/
def specForm1 (s : List Char) : Bool :=
  match s.reverse with
  | t :: ds => (!ds.isEmpty) && ds.all Char.isDigit && (suffixFactor t).isSome
  | [] => false

/-- Following the spec's words, second grammar form: a nonempty string
of digits alone. -/
def specForm2 (s : List Char) : Bool :=
  (!s.isEmpty) && s.all Char.isDigit

/-- Following the spec's words: the union of the two grammar forms of
the size-specification mini-language. -/
def specGrammar (s : List Char) : Bool := specForm1 s || specForm2 s


/-! ## Character classification lemmas -/

lemma isSpaceC_eq_false_of_digit (c : Char) (h : c.isDigit = true) :
    isSpaceC c = false := by
  unfold isSpaceC
  simp only [decide_eq_false_iff_not]
  rintro (rfl | rfl | rfl | rfl | rfl | rfl) <;> exact absurd h (by decide)

lemma stripSign_of_digit (c : Char) (cs : List Char) (h : c.isDigit = true) :
    stripSign (c :: cs) = (false, c :: cs) := by
  have h1 : c ≠ '-' := by rintro rfl; exact absurd h (by decide)
  have h2 : c ≠ '+' := by rintro rfl; exact absurd h (by decide)
  simp [stripSign, h1, h2]

lemma suffixFactor_of_digit (c : Char) (h : c.isDigit = true) :
    suffixFactor c = none := by
  have hk : ¬(c = 'k' ∨ c = 'K') := by rintro (rfl | rfl) <;> exact absurd h (by decide)
  have hm : ¬(c = 'm' ∨ c = 'M') := by rintro (rfl | rfl) <;> exact absurd h (by decide)
  have hg : ¬(c = 'g' ∨ c = 'G') := by rintro (rfl | rfl) <;> exact absurd h (by decide)
  have ht : ¬(c = 't' ∨ c = 'T') := by rintro (rfl | rfl) <;> exact absurd h (by decide)
  have hp : ¬(c = 'p' ∨ c = 'P') := by rintro (rfl | rfl) <;> exact absurd h (by decide)
  have he : ¬(c = 'e' ∨ c = 'E') := by rintro (rfl | rfl) <;> exact absurd h (by decide)
  have hs : ¬(c = 's') := by rintro rfl; exact absurd h (by decide)
  simp [suffixFactor, hk, hm, hg, ht, hp, he, hs]

lemma isDigit_eq_false_of_suffix (c : Char) (f : Nat) (h : suffixFactor c = some f) :
    c.isDigit = false := by
  cases hd : c.isDigit with
  | false => rfl
  | true => rw [suffixFactor_of_digit c hd] at h; exact Option.noConfusion h

/-! ## Scanner lemmas -/

lemma scanDigits_append (ds rest : List Char) (acc : Nat)
    (hds : ∀ c ∈ ds, c.isDigit = true)
    (hrest : ∀ c, rest.head? = some c → c.isDigit = false) :
    scanDigits (ds ++ rest) acc =
      (ds.foldl (fun a c => a * 10 + digitVal c) acc, rest) := by
  induction ds generalizing acc with
  | nil =>
      simp only [List.nil_append, List.foldl_nil]
      cases rest with
      | nil => rfl
      | cons c cs => simp [scanDigits, hrest c rfl]
  | cons d ds ih =>
      have hd : d.isDigit = true := hds d (List.mem_cons_self d ds)
      simp only [List.cons_append, scanDigits, hd, if_true, List.foldl_cons]
      exact ih _ (fun c hc => hds c (List.mem_cons_of_mem d hc))

lemma scanDigits_snd (l : List Char) (acc : Nat) :
    (scanDigits l acc).2 = l.dropWhile Char.isDigit := by
  induction l generalizing acc with
  | nil => rfl
  | cons c cs ih =>
      cases hc : c.isDigit with
      | true => simp [scanDigits, hc, ih]
      | false => simp [scanDigits, hc]

lemma scanU64_digits (ds rest : List Char) (hne : ds ≠ [])
    (hds : ∀ c ∈ ds, c.isDigit = true)
    (hrest : ∀ c, rest.head? = some c → c.isDigit = false) :
    scanU64 (ds ++ rest) = some (clampU64 (digitsVal ds), rest) := by
  cases ds with
  | nil => exact absurd rfl hne
  | cons d ds' =>
      have hd : d.isDigit = true := hds d (List.mem_cons_self d ds')
      have hsp : isSpaceC d = false := isSpaceC_eq_false_of_digit d hd
      have hdw : ((d :: ds') ++ rest).dropWhile isSpaceC = d :: (ds' ++ rest) := by
        simp [List.dropWhile_cons, hsp]
      have hstrip : stripSign (d :: (ds' ++ rest)) = (false, d :: (ds' ++ rest)) :=
        stripSign_of_digit d (ds' ++ rest) hd
      have hscan := scanDigits_append (d :: ds') rest 0 hds hrest
      unfold scanU64
      rw [hdw, hstrip]
      simp only [List.cons_append] at hscan
      simp [hd, hscan, digitsVal]

lemma clampU64_eq (n : Nat) (h : n < U64MOD) : clampU64 n = n := by
  unfold clampU64 U64MOD at *
  omega

/-! ## Behaviour of `parse_size` on the grammar forms -/

lemma parse_size_digits_suffix (ds : List Char) (c : Char) (v : Int)
    (hne : ds ≠ []) (hds : ∀ d ∈ ds, d.isDigit = true) (hc : c.isDigit = false) :
    parse_size (ds ++ [c]) v =
      match suffixFactor c with
      | some f => (0, toOfft ((clampU64 (digitsVal ds) * f) % U64MOD))
      | none => (-1, v) := by
  have hrest : ∀ x, ([c] : List Char).head? = some x → x.isDigit = false := by
    intro x hx
    cases hx
    exact hc
  have hscan := scanU64_digits ds [c] hne hds hrest
  unfold parse_size
  rw [hscan]

lemma parse_size_digits_bare (ds : List Char) (v : Int)
    (hne : ds ≠ []) (hds : ∀ d ∈ ds, d.isDigit = true) :
    parse_size ds v = (0, toOfft ((clampU64 (digitsVal ds) * 1024) % U64MOD)) := by
  have hrest : ∀ x, ([] : List Char).head? = some x → x.isDigit = false := by
    intro x hx
    exact absurd hx (by simp)
  have hscan := scanU64_digits ds [] hne hds hrest
  rw [List.append_nil] at hscan
  unfold parse_size
  rw [hscan]

lemma accepted_digits (ds rest : List Char) (hne : ds ≠ [])
    (hds : ∀ c ∈ ds, c.isDigit = true)
    (hrest : ∀ c, rest.head? = some c → c.isDigit = false) :
    accepted (ds ++ rest) =
      match rest with
      | [] => true
      | t :: _ => (suffixFactor t).isSome := by
  cases ds with
  | nil => exact absurd rfl hne
  | cons d ds' =>
      have hd : d.isDigit = true := hds d (List.mem_cons_self d ds')
      have hsp : isSpaceC d = false := isSpaceC_eq_false_of_digit d hd
      have hdw : ((d :: ds') ++ rest).dropWhile isSpaceC = d :: (ds' ++ rest) := by
        simp [List.dropWhile_cons, hsp]
      have hstrip := stripSign_of_digit d (ds' ++ rest) hd
      have hdig : ((d :: ds') ++ rest).dropWhile Char.isDigit = rest := by
        rw [List.dropWhile_append_of_pos hds]
        cases rest with
        | nil => rfl
        | cons t ts => exact List.dropWhile_cons_of_neg (by simp [hrest t rfl])
      unfold accepted
      rw [hdw, hstrip]
      simp only [List.cons_append] at hdig
      simp only [hd, Bool.true_and, hdig]
      cases rest <;> rfl

lemma parse_size_fst (s : List Char) (v : Int) :
    (parse_size s v).1 = (if accepted s = true then 0 else -1) := by
  unfold parse_size scanU64 accepted
  rcases hp : stripSign (s.dropWhile isSpaceC) with ⟨neg, s2⟩
  cases s2 with
  | nil => simp [hp]
  | cons c cs =>
      cases hc : c.isDigit with
      | false => simp [hp, hc]
      | true =>
          simp only [hc, if_true, scanDigits_snd, Bool.true_and]
          cases hd : (c :: cs).dropWhile Char.isDigit with
          | nil => simp [hd]
          | cons t ts => cases hf : suffixFactor t <;> simp [hd, hf]

/-! ## Claims about `parse_size` -/

/-- Claim C1, counterexample.  The input `"16e"` is of the form
`<digits><suffix-char>` with the digits in 64-bit range, yet the value
stored by `parse_size` is `0`, not the parsed integer multiplied by
`1024 ^ 6` (the `uint64_t` product `16 * 1024 ^ 6 = 2 ^ 64` wraps to
`0`). -/
theorem parse_size_suffix_overflow_cx :
    (parse_size "16e".data 0).1 = 0 ∧ (parse_size "16e".data 0).2 = 0 ∧
      (16 * 1024 ^ 6 : Int) ≠ 0 := by decide

/-- Claim C1 (amended).  For every input `<digits><suffix-char>` with
the digit value in 64-bit range: the suffix factors are exactly
`k/K ↦ 1024`, `m/M ↦ 1024 ^ 2`, `g/G ↦ 1024 ^ 3`, `t/T ↦ 1024 ^ 4`,
`p/P ↦ 1024 ^ 5`, `e/E ↦ 1024 ^ 6`, `s ↦ 512`, with uppercase `S`
rejected; a recognised suffix yields the parsed integer multiplied by
its factor reduced modulo `2 ^ 64` (stored through the `off_t` cell),
and any other non-digit trailing character fails with the format
error. -/
theorem parse_size_suffix_spec (ds : List Char) (c : Char) (v : Int)
    (hne : ds ≠ []) (hds : ∀ d ∈ ds, d.isDigit = true)
    (hlt : digitsVal ds < U64MOD) :
    (suffixFactor 'k' = some 1024 ∧ suffixFactor 'K' = some 1024 ∧
     suffixFactor 'm' = some (1024 ^ 2) ∧ suffixFactor 'M' = some (1024 ^ 2) ∧
     suffixFactor 'g' = some (1024 ^ 3) ∧ suffixFactor 'G' = some (1024 ^ 3) ∧
     suffixFactor 't' = some (1024 ^ 4) ∧ suffixFactor 'T' = some (1024 ^ 4) ∧
     suffixFactor 'p' = some (1024 ^ 5) ∧ suffixFactor 'P' = some (1024 ^ 5) ∧
     suffixFactor 'e' = some (1024 ^ 6) ∧ suffixFactor 'E' = some (1024 ^ 6) ∧
     suffixFactor 's' = some 512 ∧ suffixFactor 'S' = none) ∧
    (∀ f, suffixFactor c = some f →
      parse_size (ds ++ [c]) v = (0, toOfft ((digitsVal ds * f) % U64MOD))) ∧
    (c.isDigit = false → suffixFactor c = none →
      parse_size (ds ++ [c]) v = (-1, v)) := by
  refine ⟨by decide, ?_, ?_⟩
  · intro f hf
    have hc := isDigit_eq_false_of_suffix c f hf
    have h := parse_size_digits_suffix ds c v hne hds hc
    rw [hf] at h
    rw [h, clampU64_eq (digitsVal ds) hlt]
  · intro hcd hcf
    have h := parse_size_digits_suffix ds c v hne hds hcd
    rw [hcf] at h
    exact h

/-- Claim C1 witness: `"1K"` parses to `1024`. -/
theorem parse_size_suffix_spec_witness :
    parse_size (['1'] ++ ['K']) 0 = (0, toOfft ((digitsVal ['1'] * 1024) % U64MOD)) ∧
      toOfft ((digitsVal ['1'] * 1024) % U64MOD) = 1024 :=
  ⟨(parse_size_suffix_spec ['1'] 'K' 0 (by decide) (by decide) (by decide)).2.1
      1024 (by decide),
   by decide⟩

/-- Claim C2, counterexample.  `"18014398509481984"` (that is, `2 ^ 54`,
inside the 64-bit range) with no suffix stores `0`, not
`2 ^ 54 * 1024`: the default multiplication by `1024` also wraps modulo
`2 ^ 64`. -/
theorem parse_size_bare_overflow_cx :
    (parse_size "18014398509481984".data 0).1 = 0 ∧
      (parse_size "18014398509481984".data 0).2 = 0 ∧
      (18014398509481984 * 1024 : Int) ≠ 0 := by decide

/-- Claim C2 (amended).  A bare digit string whose value is in 64-bit
range parses successfully to the value multiplied by `1024`, reduced
modulo `2 ^ 64`; in particular `"10"` yields `10 * 1024 = 10240`. -/
theorem parse_size_bare_spec (ds : List Char) (v : Int)
    (hne : ds ≠ []) (hds : ∀ d ∈ ds, d.isDigit = true)
    (hlt : digitsVal ds < U64MOD) :
    parse_size ds v = (0, toOfft ((digitsVal ds * 1024) % U64MOD)) := by
  have h := parse_size_digits_bare ds v hne hds
  rwa [clampU64_eq (digitsVal ds) hlt] at h

/-- Claim C2 witness: `"10"` parses to `10240`. -/
theorem parse_size_bare_spec_witness :
    parse_size "10".data 0 = (0, toOfft ((digitsVal "10".data * 1024) % U64MOD)) ∧
      toOfft ((digitsVal "10".data * 1024) % U64MOD) = 10240 :=
  ⟨parse_size_bare_spec "10".data 0 (by decide) (by decide) (by decide),
   by decide⟩

/-- Claim C3, counterexample.  `"1kx"` matches neither grammar form
(digits plus exactly one suffix character, or digits alone), yet
`parse_size` succeeds on it: `sscanf` ignores everything after the one
character read by `%c`. -/
theorem parse_size_loose_accept_cx :
    (parse_size "1kx".data 0).1 = 0 ∧ specGrammar "1kx".data = false := by
  decide

/-- Claim C3 (amended).  `parse_size` fails with the format error
exactly when `accepted` is false — that is, iff no decimal integer can
be scanned from the start of the string (after optional whitespace and
sign), or the character immediately after the scanned integer is not
one of the suffix characters.  Every string matching one of the two
grammar forms is accepted (the suffixed form is attempted before the
bare form), but the failure set is strictly smaller than the complement
of the two forms: trailing characters after the suffix character are
ignored. -/
theorem parse_size_failure_iff :
    (∀ (s : List Char) (v : Int), ((parse_size s v).1 = -1 ↔ accepted s = false)) ∧
    (∀ s : List Char, specGrammar s = true → accepted s = true) := by
  constructor
  · intro s v
    rw [parse_size_fst]
    cases ha : accepted s <;> simp [ha]
  · intro s hs
    unfold specGrammar at hs
    simp only [Bool.or_eq_true] at hs
    rcases hs with h1 | h2
    · unfold specForm1 at h1
      cases hrev : s.reverse with
      | nil => rw [hrev] at h1; exact absurd h1 (by decide)
      | cons t ds =>
          rw [hrev] at h1
          simp only [Bool.and_eq_true, Bool.not_eq_true', List.isEmpty_eq_false,
            List.all_eq_true] at h1
          obtain ⟨⟨hne', hall⟩, hsome⟩ := h1
          have hs_eq : s = ds.reverse ++ [t] := by
            have h := congrArg List.reverse hrev
            rw [List.reverse_reverse, List.reverse_cons] at h
            exact h
          obtain ⟨f, hf⟩ := Option.isSome_iff_exists.mp hsome
          have hrne : ds.reverse ≠ [] := by simpa using hne'
          have hrall : ∀ c ∈ ds.reverse, c.isDigit = true := by
            intro c hc
            exact hall c (List.mem_reverse.mp hc)
          have hrest : ∀ c, ([t] : List Char).head? = some c → c.isDigit = false := by
            intro c hc
            cases hc
            exact isDigit_eq_false_of_suffix t f hf
          rw [hs_eq, accepted_digits ds.reverse [t] hrne hrall hrest]
          simp [hf]
    · unfold specForm2 at h2
      simp only [Bool.and_eq_true, Bool.not_eq_true', List.isEmpty_eq_false,
        List.all_eq_true] at h2
      obtain ⟨hne', hall⟩ := h2
      have hrest : ∀ c, ([] : List Char).head? = some c → c.isDigit = false := by
        intro c hc
        exact absurd hc (by simp)
      have h := accepted_digits s [] hne' hall hrest
      rw [List.append_nil] at h
      rw [h]

/-- Claim C3 witness: the grammar form `"12"` is accepted. -/
theorem parse_size_failure_iff_witness :
    accepted "12".data = true :=
  parse_size_failure_iff.2 "12".data (by decide)

/-- Claim C4.  When the mathematical product of the parsed integer and
the suffix factor exceeds `2 ^ 64 - 1`, `parse_size` does not fail: it
stores the product reduced modulo `2 ^ 64` (read back through the
`size_t` reinterpretation of the stored `off_t`), which differs from
the mathematical product. -/
theorem parse_size_mul_wraps (ds : List Char) (c : Char) (f : Nat) (v : Int)
    (hne : ds ≠ []) (hds : ∀ d ∈ ds, d.isDigit = true)
    (hlt : digitsVal ds < U64MOD) (hf : suffixFactor c = some f)
    (hbig : U64MOD ≤ digitsVal ds * f) :
    parse_size (ds ++ [c]) v = (0, toOfft ((digitsVal ds * f) % U64MOD)) ∧
      sizetToNat (parse_size (ds ++ [c]) v).2 = (digitsVal ds * f) % U64MOD ∧
      (digitsVal ds * f) % U64MOD ≠ digitsVal ds * f := by
  have hmain := (parse_size_suffix_spec ds c v hne hds hlt).2.1 f hf
  refine ⟨hmain, ?_, ?_⟩
  · rw [hmain]
    have hlt2 : (digitsVal ds * f) % U64MOD < U64MOD :=
      Nat.mod_lt _ (by unfold U64MOD; positivity)
    unfold sizetToNat toOfft U64MOD at *
    split <;> omega
  · have hlt2 : (digitsVal ds * f) % U64MOD < U64MOD :=
      Nat.mod_lt _ (by unfold U64MOD; positivity)
    omega

/-- Claim C4 witness: `"17e"` wraps to `2 ^ 60` instead of
`17 * 2 ^ 60`. -/
theorem parse_size_mul_wraps_witness :
    parse_size ("17".data ++ ['e']) 0 =
        (0, toOfft ((digitsVal "17".data * 1024 ^ 6) % U64MOD)) ∧
      sizetToNat (parse_size ("17".data ++ ['e']) 0).2 =
        (digitsVal "17".data * 1024 ^ 6) % U64MOD ∧
      (digitsVal "17".data * 1024 ^ 6) % U64MOD ≠ digitsVal "17".data * 1024 ^ 6 :=
  parse_size_mul_wraps "17".data 'e' (1024 ^ 6) 0 (by decide) (by decide)
    (by decide) (by decide) (by decide)

/-- Claim C10.  Whenever `parse_size` returns `-1`, the caller's
`*size_rtn` cell still holds its prior content: the cell is written only
on the success path. -/
theorem parse_size_no_write_on_fail (s : List Char) (v : Int)
    (h : (parse_size s v).1 = -1) : (parse_size s v).2 = v := by
  unfold parse_size at *
  cases hs : scanU64 s with
  | none => simp [hs]
  | some p =>
      rcases p with ⟨sz, rest⟩
      cases rest with
      | nil =>
          rw [hs] at h
          simp at h
      | cons t ts =>
          cases hf : suffixFactor t with
          | some f =>
              rw [hs] at h
              simp [hf] at h
          | none => simp [hs, hf]

/-- Claim C10 witness: a failed parse of `"abc"` leaves the prior value
`7` in place. -/
theorem parse_size_no_write_on_fail_witness :
    (parse_size "abc".data 7).1 = -1 ∧ (parse_size "abc".data 7).2 = 7 :=
  ⟨by decide, parse_size_no_write_on_fail "abc".data 7 (by decide)⟩

/-! ## Handler lemmas -/

lemma sizetSub_eq (a b : Nat) (hb : b ≤ a) (ha : a < U64MOD) :
    sizetSub a b = a - b := by
  unfold sizetSub U64MOD at *
  omega

lemma sizetToNat_lt (i : Int) : sizetToNat i < U64MOD := by
  unfold sizetToNat U64MOD
  omega

lemma allocLoop_complete (rets : List Int) : ∀ (rem w : Nat) (evs : List FsEvent),
    rem < U64MOD → writesOk rem rets = true →
    allocLoop rem rets = some (true, w, evs) →
    w = rem ∧ ∀ n, FsEvent.ev_write n ∈ evs → 0 < n ∧ n ≤ BUFSIZ := by
  induction rets with
  | nil =>
      intro rem w evs hrem hok hloop
      cases rem with
      | zero =>
          obtain ⟨h1, h2⟩ : 0 = w ∧ [] = evs := by
            simpa [allocLoop] using hloop
          subst h1; subst h2
          exact ⟨rfl, by simp⟩
      | succ r' => simp [allocLoop] at hloop
  | cons r rs ih =>
      intro rem w evs hrem hok hloop
      cases rem with
      | zero =>
          obtain ⟨h1, h2⟩ : 0 = w ∧ [] = evs := by
            simpa [allocLoop] using hloop
          subst h1; subst h2
          exact ⟨rfl, by simp⟩
      | succ r' =>
          unfold allocLoop at hloop
          unfold writesOk at hok
          by_cases hr : r = -1
          · rw [if_pos hr] at hloop
            simp at hloop
          · rw [if_neg hr] at hloop
            rw [if_neg hr] at hok
            simp only [Bool.and_eq_true, decide_eq_true_eq] at hok
            obtain ⟨⟨hr0, hrle⟩, hok'⟩ := hok
            cases hrec : allocLoop (sizetSub (r' + 1) r.toNat) rs with
            | none => rw [hrec] at hloop; simp at hloop
            | some trip =>
                rcases trip with ⟨ok, w', evs'⟩
                rw [hrec] at hloop
                obtain ⟨hok_eq, hw, hevs⟩ :
                    ok = true ∧ r.toNat + w' = w ∧
                      FsEvent.ev_write (min (r' + 1) BUFSIZ) :: evs' = evs := by
                  simpa using hloop
                subst hok_eq
                have hle : r.toNat ≤ r' + 1 :=
                  le_trans hrle (Nat.min_le_left _ _)
                have hsub : sizetSub (r' + 1) r.toNat = (r' + 1) - r.toNat :=
                  sizetSub_eq _ _ hle hrem
                obtain ⟨hw', hbnd⟩ :=
                  ih (sizetSub (r' + 1) r.toNat) w' evs' (by rw [hsub]; omega)
                    hok' hrec
                constructor
                · rw [hsub] at hw'
                  omega
                · intro n hn
                  rw [← hevs] at hn
                  rcases List.mem_cons.mp hn with heq | hmem
                  · have : n = min (r' + 1) BUFSIZ := by
                      injection heq
                    subst this
                    unfold BUFSIZ
                    omega
                  · exact hbnd n hmem

lemma close_and_add_drive_cases (env : Env) (evs : List FsEvent) (len : Nat) :
    (env.close_ok = true ∧ env.add_drive_ok = true ∧
      close_and_add_drive env evs len = ⟨0, evs ++ [FsEvent.ev_close], some len⟩) ∨
    (close_and_add_drive env evs len =
      ⟨-1, evs ++ [FsEvent.ev_close, FsEvent.ev_unlink], none⟩) := by
  unfold close_and_add_drive
  cases hc : env.close_ok <;> cases ha : env.add_drive_ok <;> simp

lemma do_alloc_cases (f s : String) (env : Env) (out : CmdOut)
    (h : do_alloc [f, s] env = some out) :
    (out = ⟨-1, [], env.init_file⟩) ∨
    (env.open_ok = false ∧ out = ⟨-1, [FsEvent.ev_open], env.init_file⟩) ∨
    (∃ evs len,
      out = ⟨0, FsEvent.ev_open :: (evs ++ [FsEvent.ev_close]), some len⟩) ∨
    (∃ evs,
      out = ⟨-1, FsEvent.ev_open :: (evs ++ [FsEvent.ev_close, FsEvent.ev_unlink]),
             none⟩) := by
  simp only [do_alloc] at h
  by_cases h1 : (parse_size s.data env.size_init).1 = -1
  · rw [if_pos h1] at h
    exact Or.inl (by simpa using h.symm)
  · rw [if_neg h1] at h
    cases h2 : env.is_config with
    | false =>
        rw [h2] at h
        exact Or.inl (by simpa using h.symm)
    | true =>
        rw [h2] at h
        simp only [Bool.not_true, if_false] at h
        cases h3 : env.open_ok with
        | false =>
            rw [h3] at h
            simp only [Bool.not_false, eq_self_iff_true, if_true] at h
            exact Or.inr (Or.inl ⟨rfl, by simpa using h.symm⟩)
        | true =>
            rw [h3] at h
            simp only [Bool.not_true, if_false] at h
            cases h4 : env.have_posix_fallocate with
            | true =>
                rw [h4, if_pos rfl] at h
                by_cases h5 : env.fallocate_ret = -1
                · rw [if_pos h5] at h
                  refine Or.inr (Or.inr (Or.inr ⟨[FsEvent.ev_fallocate], ?_⟩))
                  simpa using h.symm
                · rw [if_neg h5] at h
                  rcases close_and_add_drive_cases env
                      [FsEvent.ev_open, FsEvent.ev_fallocate]
                      (if env.fallocate_ret = 0 then (parse_size s.data env.size_init).2.toNat else 0)
                    with ⟨_, _, hcd⟩ | hcd
                  · rw [hcd] at h
                    refine Or.inr (Or.inr (Or.inl ⟨[FsEvent.ev_fallocate],
                      if env.fallocate_ret = 0 then (parse_size s.data env.size_init).2.toNat else 0, ?_⟩))
                    simpa using h.symm
                  · rw [hcd] at h
                    refine Or.inr (Or.inr (Or.inr ⟨[FsEvent.ev_fallocate], ?_⟩))
                    simpa using h.symm
            | false =>
                rw [h4] at h
                simp only [Bool.false_eq_true, if_false] at h
                cases hloop : allocLoop (sizetToNat (parse_size s.data env.size_init).2)
                    env.write_rets with
                | none => rw [hloop] at h; simp at h
                | some trip =>
                    rcases trip with ⟨ok, w, evs⟩
                    rw [hloop] at h
                    cases ok with
                    | true =>
                        rcases close_and_add_drive_cases env (FsEvent.ev_open :: evs) w
                          with ⟨_, _, hcd⟩ | hcd
                        · refine Or.inr (Or.inr (Or.inl ⟨evs, w, ?_⟩))
                          simp only [hcd] at h
                          simpa using h.symm
                        · refine Or.inr (Or.inr (Or.inr ⟨evs, ?_⟩))
                          simp only [hcd] at h
                          simpa using h.symm
                    | false =>
                        refine Or.inr (Or.inr (Or.inr ⟨evs, ?_⟩))
                        simpa using h.symm

lemma do_sparse_cases (f s : String) (env : Env) :
    (do_sparse [f, s] env = ⟨-1, [], env.init_file⟩) ∨
    (env.open_ok = false ∧ do_sparse [f, s] env = ⟨-1, [FsEvent.ev_open], env.init_file⟩) ∨
    (∃ evs len,
      do_sparse [f, s] env = ⟨0, FsEvent.ev_open :: (evs ++ [FsEvent.ev_close]), some len⟩) ∨
    (∃ evs,
      do_sparse [f, s] env =
        ⟨-1, FsEvent.ev_open :: (evs ++ [FsEvent.ev_close, FsEvent.ev_unlink]), none⟩) := by
  simp only [do_sparse]
  by_cases h1 : (parse_size s.data env.size_init).1 = -1
  · rw [if_pos h1]
    exact Or.inl rfl
  · rw [if_neg h1]
    cases h2 : env.is_config with
    | false => exact Or.inl rfl
    | true =>
        simp only [Bool.not_true, if_false]
        cases h3 : env.open_ok with
        | false => exact Or.inr (Or.inl ⟨rfl, rfl⟩)
        | true =>
            simp only [Bool.not_true, if_false]
            by_cases h4 : (parse_size s.data env.size_init).2 - 1 < 0 ∨
                (!env.lseek_ok) = true
            · rw [if_pos h4]
              exact Or.inr (Or.inr (Or.inr
                ⟨[FsEvent.ev_lseek ((parse_size s.data env.size_init).2 - 1)], rfl⟩))
            · rw [if_neg h4]
              by_cases h5 : env.write1_ret ≠ 1
              · rw [if_pos h5]
                exact Or.inr (Or.inr (Or.inr
                  ⟨[FsEvent.ev_lseek ((parse_size s.data env.size_init).2 - 1),
                    FsEvent.ev_write 1], rfl⟩))
              · rw [if_neg h5]
                rcases close_and_add_drive_cases env
                    [FsEvent.ev_open,
                     FsEvent.ev_lseek ((parse_size s.data env.size_init).2 - 1),
                     FsEvent.ev_write 1]
                    (((parse_size s.data env.size_init).2 - 1).toNat + 1)
                  with ⟨_, _, hcd⟩ | hcd
                · rw [hcd]
                  exact Or.inr (Or.inr (Or.inl
                    ⟨[FsEvent.ev_lseek ((parse_size s.data env.size_init).2 - 1),
                      FsEvent.ev_write 1], _, rfl⟩))
                · rw [hcd]
                  exact Or.inr (Or.inr (Or.inr
                    ⟨[FsEvent.ev_lseek ((parse_size s.data env.size_init).2 - 1),
                      FsEvent.ev_write 1], rfl⟩))

/-! ## Claims about the command handlers -/

/-- Claim C5.  If the size string parses successfully but the drives
are no longer configurable, both handlers return `-1` having performed
no filesystem operation: the event trace is empty and the target path
is untouched. -/
theorem config_closed_no_fs (f s : String) (env : Env)
    (hp : (parse_size s.data env.size_init).1 = 0)
    (hc : env.is_config = false) :
    do_alloc [f, s] env = some ⟨-1, [], env.init_file⟩ ∧
    do_sparse [f, s] env = ⟨-1, [], env.init_file⟩ := by
  have h1 : ¬((parse_size s.data env.size_init).1 = -1) := by
    rw [hp]; decide
  constructor
  · simp [do_alloc, h1, hc]
  · simp [do_sparse, h1, hc]

/-- Claim C5 witness: with configuration closed, `alloc disk 10` and
`sparse disk 10` fail without filesystem activity. -/
theorem config_closed_no_fs_witness :
    do_alloc ["disk", "10"] envCfgClosed = some ⟨-1, [], envCfgClosed.init_file⟩ ∧
    do_sparse ["disk", "10"] envCfgClosed = ⟨-1, [], envCfgClosed.init_file⟩ :=
  config_closed_no_fs "disk" "10" envCfgClosed (by decide) (by decide)

/-- Claim C6.  In both handlers, every failure (`-1`) return reached
after a successful `open` ends with no file on disk, and the event trace
contains the `unlink`; in particular a `guestfs_add_drive` failure after
the file was created and closed leaves no file behind. -/
theorem failure_unlinks_file :
    (∀ (argv : List String) (env : Env) (out : CmdOut),
      do_alloc argv env = some out → out.ret = -1 → env.open_ok = true →
      FsEvent.ev_open ∈ out.events →
      out.file = none ∧ FsEvent.ev_unlink ∈ out.events) ∧
    (∀ (argv : List String) (env : Env),
      (do_sparse argv env).ret = -1 → env.open_ok = true →
      FsEvent.ev_open ∈ (do_sparse argv env).events →
      (do_sparse argv env).file = none ∧
        FsEvent.ev_unlink ∈ (do_sparse argv env).events) := by
  constructor
  · intro argv env out h hret hopen hev
    rcases argv with _ | ⟨f, _ | ⟨s, _ | ⟨t, r⟩⟩⟩
    · obtain rfl : (⟨-1, [], env.init_file⟩ : CmdOut) = out := by
        simpa [do_alloc] using h
      simp at hev
    · obtain rfl : (⟨-1, [], env.init_file⟩ : CmdOut) = out := by
        simpa [do_alloc] using h
      simp at hev
    · rcases do_alloc_cases f s env out h with h0 | ⟨hop, h0⟩ | ⟨evs, len, h0⟩ | ⟨evs, h0⟩
      · subst h0; simp at hev
      · rw [hopen] at hop; exact absurd hop (by decide)
      · subst h0; simp at hret
      · subst h0
        constructor
        · rfl
        · simp
    · obtain rfl : (⟨-1, [], env.init_file⟩ : CmdOut) = out := by
        simpa [do_alloc] using h
      simp at hev
  · intro argv env hret hopen hev
    rcases argv with _ | ⟨f, _ | ⟨s, _ | ⟨t, r⟩⟩⟩
    · simp [do_sparse] at hev
    · simp [do_sparse] at hev
    · rcases do_sparse_cases f s env with h0 | ⟨hop, h0⟩ | ⟨evs, len, h0⟩ | ⟨evs, h0⟩
      · rw [h0] at hev; simp at hev
      · rw [hopen] at hop; exact absurd hop (by decide)
      · rw [h0] at hret; simp at hret
      · rw [h0]
        constructor
        · rfl
        · simp
    · simp [do_sparse] at hev

/-- Claim C6 witness: a `guestfs_add_drive` failure after a complete
`alloc` run leaves no file and an `unlink` in the trace. -/
theorem failure_unlinks_file_witness :
    (⟨-1, [FsEvent.ev_open, FsEvent.ev_fallocate, FsEvent.ev_close,
          FsEvent.ev_unlink], none⟩ : CmdOut).file = none ∧
      FsEvent.ev_unlink ∈
        (⟨-1, [FsEvent.ev_open, FsEvent.ev_fallocate, FsEvent.ev_close,
              FsEvent.ev_unlink], none⟩ : CmdOut).events :=
  failure_unlinks_file.1 ["disk", "10"] envAddFail
    ⟨-1, [FsEvent.ev_open, FsEvent.ev_fallocate, FsEvent.ev_close,
          FsEvent.ev_unlink], none⟩
    (by decide) (by decide) (by decide) (by decide)

/-- Claim C7.  Each handler returns exactly `0` on success and `-1` on
every failure; with an argument count other than two it returns `-1`
with an empty event trace and the target path untouched. -/
theorem handlers_ret_codes :
    (∀ (argv : List String) (env : Env) (out : CmdOut),
      do_alloc argv env = some out →
      (out.ret = 0 ∨ out.ret = -1) ∧
        (argv.length ≠ 2 → out = ⟨-1, [], env.init_file⟩)) ∧
    (∀ (argv : List String) (env : Env),
      ((do_sparse argv env).ret = 0 ∨ (do_sparse argv env).ret = -1) ∧
        (argv.length ≠ 2 → do_sparse argv env = ⟨-1, [], env.init_file⟩)) := by
  constructor
  · intro argv env out h
    rcases argv with _ | ⟨f, _ | ⟨s, _ | ⟨t, r⟩⟩⟩
    · obtain rfl : (⟨-1, [], env.init_file⟩ : CmdOut) = out := by
        simpa [do_alloc] using h
      exact ⟨Or.inr rfl, fun _ => rfl⟩
    · obtain rfl : (⟨-1, [], env.init_file⟩ : CmdOut) = out := by
        simpa [do_alloc] using h
      exact ⟨Or.inr rfl, fun _ => rfl⟩
    · refine ⟨?_, fun hn => absurd rfl hn⟩
      rcases do_alloc_cases f s env out h with h0 | ⟨hop, h0⟩ | ⟨evs, len, h0⟩ | ⟨evs, h0⟩
      · subst h0; exact Or.inr rfl
      · subst h0; exact Or.inr rfl
      · subst h0; exact Or.inl rfl
      · subst h0; exact Or.inr rfl
    · obtain rfl : (⟨-1, [], env.init_file⟩ : CmdOut) = out := by
        simpa [do_alloc] using h
      exact ⟨Or.inr rfl, fun _ => rfl⟩
  · intro argv env
    rcases argv with _ | ⟨f, _ | ⟨s, _ | ⟨t, r⟩⟩⟩
    · exact ⟨Or.inr rfl, fun _ => rfl⟩
    · exact ⟨Or.inr rfl, fun _ => rfl⟩
    · refine ⟨?_, fun hn => absurd rfl hn⟩
      rcases do_sparse_cases f s env with h0 | ⟨hop, h0⟩ | ⟨evs, len, h0⟩ | ⟨evs, h0⟩
      · rw [h0]; exact Or.inr rfl
      · rw [h0]; exact Or.inr rfl
      · rw [h0]; exact Or.inl rfl
      · rw [h0]; exact Or.inr rfl
    · exact ⟨Or.inr rfl, fun _ => rfl⟩

/-- Claim C7 witness: a one-argument call returns `-1` with an empty
trace. -/
theorem handlers_ret_codes_witness :
    ((⟨-1, [], (none : Option Nat)⟩ : CmdOut).ret = 0 ∨
      (⟨-1, [], (none : Option Nat)⟩ : CmdOut).ret = -1) ∧
      ((["disk"] : List String).length ≠ 2 →
        (⟨-1, [], (none : Option Nat)⟩ : CmdOut) = ⟨-1, [], envAllOk.init_file⟩) :=
  handlers_ret_codes.1 ["disk"] envAllOk ⟨-1, [], none⟩ (by decide)

/-- Claim C8.  With a cooperative environment, `do_sparse` seeks to
offset `size - 1`, writes one zero byte there, and ends with a file of
logical length exactly `size`; when the parsed size is `0` the seek
offset is `-1`, the `lseek` fails, and the handler returns `-1` with the
created file deleted. -/
theorem sparse_seek_write (f s : String) (env : Env) (size : Int)
    (hp : parse_size s.data env.size_init = (0, size))
    (hc : env.is_config = true) (ho : env.open_ok = true)
    (hl : env.lseek_ok = true) (hw : env.write1_ret = 1)
    (hcl : env.close_ok = true) (ha : env.add_drive_ok = true) :
    (0 < size →
      do_sparse [f, s] env =
        ⟨0, [FsEvent.ev_open, FsEvent.ev_lseek (size - 1), FsEvent.ev_write 1,
             FsEvent.ev_close], some size.toNat⟩) ∧
    (size = 0 →
      do_sparse [f, s] env =
        ⟨-1, [FsEvent.ev_open, FsEvent.ev_lseek (-1), FsEvent.ev_close,
              FsEvent.ev_unlink], none⟩) := by
  have h1 : ¬((parse_size s.data env.size_init).1 = -1) := by
    rw [hp]; norm_num
  constructor
  · intro hpos
    have hng : ¬(size - 1 < 0) := by omega
    simp [do_sparse, h1, hc, ho, hl, hw, hcl, ha, hp, hng,
      close_and_add_drive]
    omega
  · intro h0
    subst h0
    have hlt : ((0 : Int) - 1 < 0) := by omega
    have h01 : (0 : Int) - 1 = -1 := by omega
    simp [do_sparse, h1, hc, ho, hp, hlt, h01]

/-- Claim C8 witness: `sparse disk 1` makes a 1024-byte file
(`"1"` parses to 1024); `sparse disk 0` fails on the negative seek
offset and deletes the file. -/
theorem sparse_seek_write_witness :
    do_sparse ["disk", "1"] envAllOk =
      ⟨0, [FsEvent.ev_open, FsEvent.ev_lseek 1023, FsEvent.ev_write 1,
           FsEvent.ev_close], some 1024⟩ ∧
    do_sparse ["disk", "0"] envAllOk =
      ⟨-1, [FsEvent.ev_open, FsEvent.ev_lseek (-1), FsEvent.ev_close,
            FsEvent.ev_unlink], none⟩ := by
  constructor
  · have h := (sparse_seek_write "disk" "1" envAllOk 1024 (by decide) rfl rfl
      rfl rfl rfl rfl).1 (by decide)
    simpa using h
  · exact (sparse_seek_write "disk" "0" envAllOk 0 (by decide) rfl rfl
      rfl rfl rfl rfl).2 rfl

/-- Claim C9.  The fallback write loop of `do_alloc` requests chunks of
at most `BUFSIZ` bytes, advances the remaining-byte counter by exactly
the count each `write` reports, and stops at zero or on error; when it
completes without error the total number of bytes written is exactly
the requested size, and under a cooperative environment `do_alloc`
then succeeds with a file of exactly that length. -/
theorem alloc_loop_writes_size :
    (∀ (rets : List Int) (rem w : Nat) (evs : List FsEvent),
      rem < U64MOD → writesOk rem rets = true →
      allocLoop rem rets = some (true, w, evs) →
      w = rem ∧ ∀ n, FsEvent.ev_write n ∈ evs → 0 < n ∧ n ≤ BUFSIZ) ∧
    (∀ (f s : String) (env : Env) (size : Int) (w : Nat) (evs : List FsEvent),
      parse_size s.data env.size_init = (0, size) →
      env.is_config = true → env.open_ok = true →
      env.have_posix_fallocate = false →
      writesOk (sizetToNat size) env.write_rets = true →
      allocLoop (sizetToNat size) env.write_rets = some (true, w, evs) →
      env.close_ok = true → env.add_drive_ok = true →
      do_alloc [f, s] env =
        some ⟨0, FsEvent.ev_open :: (evs ++ [FsEvent.ev_close]), some w⟩ ∧
      w = sizetToNat size) := by
  constructor
  · exact fun rets rem w evs hrem hok hloop =>
      allocLoop_complete rets rem w evs hrem hok hloop
  · intro f s env size w evs hp hc ho hpf hok hloop hcl ha
    have h1 : ¬((parse_size s.data env.size_init).1 = -1) := by
      rw [hp]; norm_num
    refine ⟨?_, (allocLoop_complete env.write_rets (sizetToNat size) w evs
      (sizetToNat_lt size) hok hloop).1⟩
    simp [do_alloc, h1, hc, ho, hpf, hp, hloop, close_and_add_drive, hcl, ha]

/-- Claim C9 witness: a three-byte request served by writes of 2 and 1
bytes totals exactly 3 bytes in chunks within `BUFSIZ`. -/
theorem alloc_loop_writes_size_witness :
    (3 : Nat) = 3 ∧
      (∀ n, FsEvent.ev_write n ∈ [FsEvent.ev_write 3, FsEvent.ev_write 1] →
        0 < n ∧ n ≤ BUFSIZ) :=
  alloc_loop_writes_size.1 [2, 1] 3 3 [FsEvent.ev_write 3, FsEvent.ev_write 1]
    (by decide) (by decide) (by decide)

/-! ## Concrete checks of the testable properties listed in the spec -/

example : parse_size "10".data 0 = (0, 10240) := by decide
example : parse_size "1K".data 0 = (0, 1024) := by decide
example : parse_size "1k".data 0 = (0, 1024) := by decide
example : parse_size "2M".data 0 = (0, 2 * 1024 * 1024) := by decide
example : parse_size "1s".data 0 = (0, 512) := by decide
example : parse_size "1S".data 7 = (-1, 7) := by decide
example : parse_size "abc".data 7 = (-1, 7) := by decide
example : do_sparse ["disk", "4"] envAllOk =
    ⟨0, [FsEvent.ev_open, FsEvent.ev_lseek 4095, FsEvent.ev_write 1,
         FsEvent.ev_close], some 4096⟩ := by decide
example : do_alloc ["disk"] envAllOk = some ⟨-1, [], none⟩ := by decide
example :
    do_alloc ["disk", "20"] envNoFalloc =
    some ⟨0, [FsEvent.ev_open, FsEvent.ev_write 8192, FsEvent.ev_write 8192,
              FsEvent.ev_write 4096, FsEvent.ev_close], some 20480⟩ := by decide
